import Mathlib

/- Verification development for the PXE client synchronizer and the
   DeferredNoteDao serialization (yarn-project/pxe/src/database and
   yarn-project/pxe/src/synchronizer).

   Buffers are modelled as lists of bytes (natural numbers below 256 in
   well-formed data).  Field elements (Fr, AztecAddress, storage slots,
   nullifiers) serialize as 32 big-endian bytes, points (public keys) as
   two field elements, TxHash as 32 bytes, vectors as a u32 big-endian
   length prefix followed by the elements, and plain numbers as u32
   big-endian. -/

namespace PxeSync

/-- Big-endian byte encoding of a natural number into exactly `w` bytes
    (most significant first, truncating above `256 ^ w`). -/
def toBytesBE : Nat → Nat → List Nat
  | 0, _ => []
  | w + 1, n => toBytesBE w (n / 256) ++ [n % 256]

/-- Big-endian byte decoding. -/
def fromBytesBE (bs : List Nat) : Nat :=
  bs.foldl (fun acc b => acc * 256 + b) 0

/-- Reads exactly `w` bytes, returning them and the rest of the buffer. -/
def readBytes (w : Nat) (bs : List Nat) : Option (List Nat × List Nat) :=
  if w ≤ bs.length then some (bs.take w, bs.drop w) else none

/-- A field element (Fr / AztecAddress / TxHash) serializes as 32 big-endian bytes. -/
def frToBytes (n : Nat) : List Nat := toBytesBE 32 n

/-- A plain number serializes as a u32 big-endian, as serializeToBuffer does. -/
def u32ToBytes (n : Nat) : List Nat := toBytesBE 4 n

/-- Reads a 32-byte field element. -/
def readFr (bs : List Nat) : Option (Nat × List Nat) :=
  (readBytes 32 bs).map (fun p => (fromBytesBE p.1, p.2))

/-- Reads a u32 number (BufferReader.readNumber). -/
def readU32 (bs : List Nat) : Option (Nat × List Nat) :=
  (readBytes 4 bs).map (fun p => (fromBytesBE p.1, p.2))

/-- A Vector of field elements serializes as a u32 length prefix followed by
    the 32-byte elements (serializeToBuffer of a Vector). -/
def vectorToBytes (xs : List Nat) : List Nat :=
  u32ToBytes xs.length ++ (xs.map frToBytes).flatten

/-- Reads `k` field elements in sequence. -/
def readFrList : Nat → List Nat → Option (List Nat × List Nat)
  | 0, bs => some ([], bs)
  | k + 1, bs =>
    match readFr bs with
    | none => none
    | some (x, bs1) =>
      match readFrList k bs1 with
      | none => none
      | some (xs, bs2) => some (x :: xs, bs2)

/-- Reads a length-prefixed vector of field elements (BufferReader.readVector Fr). -/
def readVector (bs : List Nat) : Option (List Nat × List Nat) :=
  match readU32 bs with
  | none => none
  | some (k, bs1) => readFrList k bs1

/-- A note that could not be decoded yet because its contract is missing
    locally; mirrors DeferredNoteDao in deferred_note_dao.ts.  The public key
    is a point (two field elements); the note payload is its list of field
    elements (Modelled from the spec: the Note class is not under src, its
    serialization is the Vector format of the glossary). -/
structure DeferredNoteDao where
  publicKeyX : Nat
  publicKeyY : Nat
  note : List Nat
  contractAddress : Nat
  storageSlot : Nat
  txHash : Nat
  txNullifier : Nat
  newCommitments : List Nat
  dataStartIndexForTx : Nat
deriving DecidableEq, Repr

namespace DeferredNoteDao

/-- DeferredNoteDao.toBuffer: publicKey, note, contractAddress, storageSlot,
    txHash, txNullifier, newCommitments vector, dataStartIndexForTx. -/
def toBuffer (d : DeferredNoteDao) : List Nat :=
  frToBytes d.publicKeyX ++ frToBytes d.publicKeyY ++
  vectorToBytes d.note ++
  frToBytes d.contractAddress ++
  frToBytes d.storageSlot ++
  frToBytes d.txHash ++
  frToBytes d.txNullifier ++
  vectorToBytes d.newCommitments ++
  u32ToBytes d.dataStartIndexForTx

/-- DeferredNoteDao.fromBuffer: reads the fields back in the same order. -/
def fromBuffer (bs : List Nat) : Option DeferredNoteDao :=
  match readFr bs with
  | none => none
  | some (pkx, bs) =>
  match readFr bs with
  | none => none
  | some (pky, bs) =>
  match readVector bs with
  | none => none
  | some (note, bs) =>
  match readFr bs with
  | none => none
  | some (contractAddress, bs) =>
  match readFr bs with
  | none => none
  | some (storageSlot, bs) =>
  match readFr bs with
  | none => none
  | some (txHash, bs) =>
  match readFr bs with
  | none => none
  | some (txNullifier, bs) =>
  match readVector bs with
  | none => none
  | some (newCommitments, bs) =>
  match readU32 bs with
  | none => none
  | some (dataStartIndexForTx, _) =>
    some ⟨pkx, pky, note, contractAddress, storageSlot, txHash, txNullifier,
      newCommitments, dataStartIndexForTx⟩

/-- Well-formedness: every field element fits in 32 bytes, vector lengths and
    the data start index fit in a u32. -/
def wf (d : DeferredNoteDao) : Prop :=
  d.publicKeyX < 2 ^ 256 ∧ d.publicKeyY < 2 ^ 256 ∧
  (∀ x ∈ d.note, x < 2 ^ 256) ∧ d.note.length < 2 ^ 32 ∧
  d.contractAddress < 2 ^ 256 ∧ d.storageSlot < 2 ^ 256 ∧
  d.txHash < 2 ^ 256 ∧ d.txNullifier < 2 ^ 256 ∧
  (∀ x ∈ d.newCommitments, x < 2 ^ 256) ∧ d.newCommitments.length < 2 ^ 32 ∧
  d.dataStartIndexForTx < 2 ^ 32

instance (d : DeferredNoteDao) : Decidable (wf d) := by
  unfold wf
  infer_instance

end DeferredNoteDao

/-- Errors thrown by node RPCs, the database, or the synchronizer itself. -/
inductive SyncErr
  | nodeError
  | dbError
  | typeError
  | invariantViolation
deriving DecidableEq, Repr

/-- LogType from the types package: encrypted or unencrypted logs. -/
inductive LogType
  | encrypted
  | unencrypted
deriving DecidableEq, Repr

/-- An L2BlockL2Logs bundle; its payload is irrelevant to the synchronizer,
    which only measures lengths and forwards the bundles, so it is modelled
    as an abstract tag. -/
abbrev Logs := Nat

/-- An L2 block: its number, the tree snapshot roots and global variables
    used by setBlockDataFromBlock, and the log bundles attached by work. -/
structure Block where
  number : Int
  endNoteHashTreeRoot : Nat
  endNullifierTreeRoot : Nat
  endContractTreeRoot : Nat
  endL1ToL2MessageTreeRoot : Nat
  endArchiveRoot : Nat
  endPublicDataTreeRoot : Nat
  globalVariables : Nat
  attachedEncryptedLogs : Option Logs := none
  attachedUnencryptedLogs : Option Logs := none
deriving DecidableEq, Repr

/-- A BlockHeader: six tree roots, the private kernel vk tree root
    placeholder, and the global variables hash. -/
structure BlockHeader where
  noteHashTreeRoot : Nat
  nullifierTreeRoot : Nat
  contractTreeRoot : Nat
  l1ToL2MessageTreeRoot : Nat
  archiveRoot : Nat
  privateKernelVkTreeRoot : Nat
  publicDataTreeRoot : Nat
  globalVariablesHash : Nat
deriving DecidableEq, Repr

/-- An L2BlockContext simply wraps a block for processing. -/
structure L2BlockContext where
  block : Block
deriving DecidableEq, Repr

/-- A decoded note row, as far as the synchronizer inspects it
    (reprocessDeferredNotesForContract groups by public key and scans the
    siloed nullifiers). -/
structure NoteDao where
  publicKey : Nat
  siloedNullifier : Nat
deriving DecidableEq, Repr

/-- A note processor, as far as the synchronizer inspects it: its public key
    and its syncedToBlock status. -/
structure NoteProcessor where
  publicKey : Nat
  syncedToBlock : Int
deriving DecidableEq, Repr

/-- Modelled from the spec: the PxeDatabase facade (spec section 4.4) stores
    the block data (number and header) and the note rows.  setBlockData
    overwrites the block data; notes are appended and filtered. -/
structure DB where
  blockNumber : Option Int := none
  blockHeader : Option BlockHeader := none
  notes : List NoteDao := []
deriving DecidableEq, Repr

/-- Modelled from the spec: db.setBlockData(blockNumber, header). -/
def dbSetBlockData (db : DB) (n : Int) (h : BlockHeader) : DB :=
  { db with blockNumber := some n, blockHeader := some h }

/-- Modelled from the spec: db.addNotes appends decoded note rows. -/
def dbAddNotes (db : DB) (ns : List NoteDao) : DB :=
  { db with notes := db.notes ++ ns }

/-- Modelled from the spec: db.removeNullifiedNotes(nullifiers, publicKey)
    removes the notes of that public key whose siloed nullifier is listed. -/
def dbRemoveNullifiedNotes (db : DB) (nullifiers : List Nat) (publicKey : Nat) : DB :=
  { db with notes :=
      (db.notes.filter
        (fun n => !(n.publicKey == publicKey && nullifiers.contains n.siloedNullifier))) }

/-- The external collaborators of the synchronizer: the node RPCs (each of
    which may throw), the globals hash function, and the per-account note
    processing routine.  Modelled from the spec: NoteProcessor.process
    (section 4.5) decrypts the batch, returns the advanced processor state
    and the decoded notes to persist; it does not write block data. -/
structure Env where
  getLogs : Int → Int → LogType → Except SyncErr (List Logs)
  getBlocks : Int → Int → Except SyncErr (List Block)
  getBlockNumber : Except SyncErr Int
  getBlockHeader : Except SyncErr BlockHeader
  findLeafIndex : Nat → Except SyncErr (Option Nat)
  computeGlobalsHash : Nat → Nat
  processFn : NoteProcessor → List L2BlockContext → List Logs → DB →
    Except SyncErr (NoteProcessor × List NoteDao)

/-- The synchronizer state: the active processors, the processors still
    catching up, the initial sync block number, the database, and the stream
    of note-processor-caught-up events emitted so far (recorded by public
    key). -/
structure SyncState where
  noteProcessors : List NoteProcessor := []
  noteProcessorsToCatchUp : List NoteProcessor := []
  initialSyncBlockNumber : Int
  db : DB := {}
  events : List Nat := []
deriving DecidableEq, Repr

/-- getSynchedBlockNumber: the DB block number, falling back to the initial
    sync block number. -/
def getSynchedBlockNumber (st : SyncState) : Int :=
  st.db.blockNumber.getD st.initialSyncBlockNumber

/-- The value `from` computed at the top of work. -/
def nextFrom (st : SyncState) : Int :=
  getSynchedBlockNumber st + 1

/-- block.attachLogs(logs, logType). -/
def Block.attachLogs (b : Block) (l : Logs) : LogType → Block
  | .encrypted => { b with attachedEncryptedLogs := some l }
  | .unencrypted => { b with attachedUnencryptedLogs := some l }

/-- The forEach loop of work: attach to the i-th block the i-th encrypted and
    i-th unencrypted log bundle (none when the lists run short, as a
    JavaScript out-of-range index yields undefined). -/
def attachAll : List Block → List Logs → List Logs → List Block
  | [], _, _ => []
  | b :: bs, enc, unenc =>
    { b with attachedEncryptedLogs := enc.head?, attachedUnencryptedLogs := unenc.head? }
      :: attachAll bs enc.tail unenc.tail

/-- The BlockHeader built by setBlockDataFromBlock: the six end tree roots of
    the block, Fr.ZERO for the private kernel vk tree root, and the global
    variables hash. -/
def mkBlockHeaderFromBlock (env : Env) (b : Block) : BlockHeader :=
  { noteHashTreeRoot := b.endNoteHashTreeRoot
    nullifierTreeRoot := b.endNullifierTreeRoot
    contractTreeRoot := b.endContractTreeRoot
    l1ToL2MessageTreeRoot := b.endL1ToL2MessageTreeRoot
    archiveRoot := b.endArchiveRoot
    privateKernelVkTreeRoot := 0
    publicDataTreeRoot := b.endPublicDataTreeRoot
    globalVariablesHash := env.computeGlobalsHash b.globalVariables }

/-- Synchronizer.setBlockDataFromBlock: skip when the block number is below
    the initial sync block number, otherwise persist the header built from
    the block. -/
def setBlockDataFromBlock (env : Env) (st : SyncState) (latestBlock : L2BlockContext) :
    SyncState :=
  if latestBlock.block.number < st.initialSyncBlockNumber then st
  else { st with db :=
      (dbSetBlockData st.db latestBlock.block.number
        (mkBlockHeaderFromBlock env latestBlock.block)) }

/-- The note processor loop of work: run processFn on each processor in
    order, persisting its decoded notes; stop at the first throw (the
    remaining processors stay untouched) and report it through the Bool. -/
def processAll (env : Env) (ctxs : List L2BlockContext) (logs : List Logs) :
    List NoteProcessor → DB → Bool × List NoteProcessor × DB
  | [], db => (true, [], db)
  | np :: rest, db =>
    match env.processFn np ctxs logs db with
    | .error _ => (false, np :: rest, db)
    | .ok (np', newNotes) =>
      let db' := dbAddNotes db newNotes
      let r := processAll env ctxs logs rest db'
      (r.1, np' :: r.2.1, r.2.2)

/-- Synchronizer.work: fetch encrypted logs, unencrypted logs and blocks
    starting at `from`, bail out with false on empty results or thrown
    errors, trim the log lists to the number of blocks, attach logs, keep
    the blocks numbered at least `from`, persist the header of the last one,
    and feed every active processor.  The try/catch of the source is the
    error arms: every throw is caught and turned into a false return with
    the state as mutated so far. -/
def work (env : Env) (limit : Int) (st : SyncState) : Bool × SyncState :=
  let start := nextFrom st
  match env.getLogs start limit .encrypted with
  | .error _ => (false, st)
  | .ok encryptedLogs0 =>
  if encryptedLogs0.length = 0 then (false, st) else
  match env.getLogs start limit .unencrypted with
  | .error _ => (false, st)
  | .ok unencryptedLogs0 =>
  if unencryptedLogs0.length = 0 then (false, st) else
  match env.getBlocks start (encryptedLogs0.length : Int) with
  | .error _ => (false, st)
  | .ok blocks =>
  if blocks.length = 0 then (false, st) else
  let encryptedLogs :=
    if blocks.length ≠ encryptedLogs0.length then encryptedLogs0.take blocks.length
    else encryptedLogs0
  let unencryptedLogs :=
    if blocks.length ≠ unencryptedLogs0.length then unencryptedLogs0.take blocks.length
    else unencryptedLogs0
  let attached := attachAll blocks encryptedLogs unencryptedLogs
  let blockContexts := (attached.filter (fun b => start ≤ b.number)).map L2BlockContext.mk
  match blockContexts.getLast? with
  | none => (false, st)
  | some latestBlock =>
    let st1 := setBlockDataFromBlock env st latestBlock
    let r := processAll env blockContexts encryptedLogs st1.noteProcessors st1.db
    (r.1, { st1 with noteProcessors := r.2.1, db := r.2.2 })

/-- Synchronizer.workNoteProcessorCatchUp: operate on the head of the
    catch-up list.  If it is already synched, promote it to the active list
    (without emitting any event) and return true.  Otherwise cap the limit,
    throw on a non-positive limit (this throw is outside the try block and
    propagates), fetch logs and blocks, and process them; every throw inside
    the try block — including the two deliberate throws on empty fetches —
    is caught by the catch of this very function and turned into a false
    return.  After processing, promote the processor and emit the
    note-processor-caught-up event when it reached the target block. -/
def workNoteProcessorCatchUp (env : Env) (limit : Int) (st : SyncState) :
    Except SyncErr (Bool × SyncState) :=
  match st.noteProcessorsToCatchUp with
  | [] => .error .typeError
  | noteProcessor :: restCatchUp =>
    let toBlockNumber := getSynchedBlockNumber st
    if noteProcessor.syncedToBlock ≥ toBlockNumber then
      .ok (true, { st with noteProcessorsToCatchUp := restCatchUp,
                           noteProcessors := st.noteProcessors ++ [noteProcessor] })
    else
      let start := noteProcessor.syncedToBlock + 1
      let limit1 := min limit (toBlockNumber - start + 1)
      if limit1 < 1 then .error .invariantViolation
      else
        match env.getLogs start limit1 .encrypted with
        | .error _ => .ok (false, st)
        | .ok encryptedLogs0 =>
        if encryptedLogs0.length = 0 then .ok (false, st) else
        match env.getBlocks start (encryptedLogs0.length : Int) with
        | .error _ => .ok (false, st)
        | .ok blocks =>
        if blocks.length = 0 then .ok (false, st) else
        let encryptedLogs :=
          if blocks.length ≠ encryptedLogs0.length then encryptedLogs0.take blocks.length
          else encryptedLogs0
        let blockContexts := blocks.map L2BlockContext.mk
        match env.processFn noteProcessor blockContexts encryptedLogs st.db with
        | .error _ => .ok (false, st)
        | .ok (np', newNotes) =>
          let db' := dbAddNotes st.db newNotes
          if np'.syncedToBlock = toBlockNumber then
            .ok (true, { st with db := db',
                                 noteProcessorsToCatchUp := restCatchUp,
                                 noteProcessors := st.noteProcessors ++ [np'],
                                 events := st.events ++ [np'.publicKey] })
          else
            .ok (true, { st with db := db',
                                 noteProcessorsToCatchUp := np' :: restCatchUp })

/-- Synchronizer.initialSync: read the latest block number and header from
    the node, record the number and persist both; a node throw propagates
    and leaves the state untouched. -/
def initialSync (env : Env) (st : SyncState) : Except SyncErr SyncState :=
  match env.getBlockNumber with
  | .error e => .error e
  | .ok latestBlockNumber =>
    match env.getBlockHeader with
    | .error e => .error e
    | .ok latestBlockHeader =>
      .ok { st with initialSyncBlockNumber := latestBlockNumber,
                    db := dbSetBlockData st.db latestBlockNumber latestBlockHeader }

/-- Modelled from the spec: constructing a NoteProcessor (section 4.5)
    initializes syncedToBlock to startingBlock − 1. -/
def mkNoteProcessor (publicKey : Nat) (startingBlock : Int) : NoteProcessor :=
  { publicKey := publicKey, syncedToBlock := startingBlock - 1 }

/-- Synchronizer.addAccount: return unchanged when a processor with this
    public key exists in either list, otherwise append a fresh processor to
    the catch-up list. -/
def addAccount (st : SyncState) (publicKey : Nat) (startingBlock : Int) : SyncState :=
  let predicate := fun (x : NoteProcessor) => x.publicKey == publicKey
  match (st.noteProcessors.find? predicate).orElse
      (fun _ => st.noteProcessorsToCatchUp.find? predicate) with
  | some _ => st
  | none =>
    { st with noteProcessorsToCatchUp :=
        st.noteProcessorsToCatchUp ++ [mkNoteProcessor publicKey startingBlock] }

/-- Synchronizer.getSyncStatus: the synched block number together with the
    (publicKey, syncedToBlock) entries of the active processors, in list
    order (the source builds a JavaScript object from these entries). -/
def getSyncStatus (st : SyncState) : Int × List (Nat × Int) :=
  (getSynchedBlockNumber st,
   st.noteProcessors.map (fun n => (n.publicKey, n.syncedToBlock)))

/-- Reading key `k` from the JavaScript object built by Object.fromEntries:
    the value of the last entry carrying that key, if any. -/
def objGet (entries : List (Nat × Int)) (k : Nat) : Option Int :=
  ((entries.filter (fun p => p.1 == k)).getLast?).map Prod.snd

/-- JavaScript truthiness of the findLeafIndex result: undefined is falsy
    and so is the index 0. -/
def jsTruthyIndex : Option Nat → Bool
  | some i => i != 0
  | none => false

/-- The nullifier scan loop of reprocessDeferredNotesForContract: query the
    node for each nullifier and keep those whose result is truthy; a node
    throw propagates out of the task. -/
def collectRelevantNullifiers (env : Env) : List Nat → Except SyncErr (List Nat)
  | [] => .ok []
  | nullifier :: rest =>
    match env.findLeafIndex nullifier with
    | .error e => .error e
    | .ok found =>
      match collectRelevantNullifiers env rest with
      | .error e => .error e
      | .ok tail => .ok (if jsTruthyIndex found then nullifier :: tail else tail)

/-- The per-public-key body of the final loop of
    reprocessDeferredNotesForContract: scan the siloed nullifiers of the
    decoded notes of the group and remove the ones found on-chain. -/
def nullifierScanForGroup (env : Env) (db : DB) (publicKey : Nat) (notes : List NoteDao) :
    Except SyncErr (List Nat × DB) :=
  match collectRelevantNullifiers env (notes.map (fun n => n.siloedNullifier)) with
  | .error e => .error e
  | .ok relevantNullifiers =>
    .ok (relevantNullifiers, dbRemoveNullifiedNotes db relevantNullifiers publicKey)

/-- The synchronizer operations that touch the state, for reasoning about
    operation sequences. -/
inductive SyncOp
  | initialSyncOp
  | workOp (limit : Int)
  | catchUpOp (limit : Int)
  | addAccountOp (publicKey : Nat) (startingBlock : Int)
deriving DecidableEq, Repr

/-- The state after one operation (a propagated throw leaves the state as it
    was, since initialSync mutates nothing before its reads succeed and the
    catch-up invariant throw happens before any mutation). -/
def applyOp (env : Env) (op : SyncOp) (st : SyncState) : SyncState :=
  match op with
  | .initialSyncOp =>
    match initialSync env st with
    | .ok st' => st'
    | .error _ => st
  | .workOp limit => (work env limit st).2
  | .catchUpOp limit =>
    match workNoteProcessorCatchUp env limit st with
    | .ok r => r.2
    | .error _ => st
  | .addAccountOp publicKey startingBlock => addAccount st publicKey startingBlock

/-- Run a sequence of operations. -/
def runOps (env : Env) : List SyncOp → SyncState → SyncState
  | [], st => st
  | op :: ops, st => runOps env ops (applyOp env op st)

/-- The node reports a latest block number at least the current DB block
    number (hypothesis of the initial sync step). -/
def initialSyncOk (env : Env) (st : SyncState) : Bool :=
  match st.db.blockNumber, env.getBlockNumber with
  | some n, .ok b => n ≤ b
  | _, _ => true

/-- The initial sync hypothesis holds at every initialSync occurrence of the
    trace. -/
def traceOk (env : Env) : List SyncOp → SyncState → Bool
  | [], _ => true
  | op :: ops, st =>
    (match op with
     | .initialSyncOp => initialSyncOk env st
     | _ => true) && traceOk env ops (applyOp env op st)

/-- The node returns blocks in ascending order, numbered at least the
    requested start. -/
def getBlocksOk (env : Env) : Prop :=
  ∀ f l blocks, env.getBlocks f l = .ok blocks →
    (∀ b ∈ blocks, f ≤ b.number) ∧ blocks.Chain' (fun a b => a.number ≤ b.number)

/-- Whether an operation is work or initialSync (the only two that may move
    the DB block number). -/
def modifiesCursor : SyncOp → Bool
  | .initialSyncOp => true
  | .workOp _ => true
  | _ => false

/-- Order on optional block numbers: a stored number never decreases and is
    never erased. -/
def optLe (a b : Option Int) : Prop :=
  ∀ n, a = some n → ∃ m, b = some m ∧ n ≤ m

/- Concrete fixtures used to witness or refute the claims. -/

/-- A sample block with number `n` and distinct tree roots. -/
def sampleBlock (n : Int) : Block :=
  { number := n, endNoteHashTreeRoot := 1, endNullifierTreeRoot := 2,
    endContractTreeRoot := 3, endL1ToL2MessageTreeRoot := 4, endArchiveRoot := 5,
    endPublicDataTreeRoot := 6, globalVariables := 9 }

/-- A sample block header. -/
def sampleHeader : BlockHeader :=
  { noteHashTreeRoot := 0, nullifierTreeRoot := 0, contractTreeRoot := 0,
    l1ToL2MessageTreeRoot := 0, archiveRoot := 0, privateKernelVkTreeRoot := 0,
    publicDataTreeRoot := 0, globalVariablesHash := 0 }

/-- A node that serves one log bundle and the single block 6, and a note
    processing routine that throws (say, on its database write). -/
def c1Env : Env :=
  { getLogs := fun _ _ t => if t == LogType.encrypted then .ok [100] else .ok [200]
    getBlocks := fun _ _ => .ok [sampleBlock 6]
    getBlockNumber := .ok 10
    getBlockHeader := .ok sampleHeader
    findLeafIndex := fun _ => .ok none
    computeGlobalsHash := fun g => g
    processFn := fun _ _ _ _ => .error .dbError }

/-- A synchronizer with one active processor, synched to block 5. -/
def c1St : SyncState :=
  { noteProcessors := [{ publicKey := 7, syncedToBlock := 0 }],
    noteProcessorsToCatchUp := [],
    initialSyncBlockNumber := 0,
    db := { blockNumber := some 5, blockHeader := none, notes := [] },
    events := [] }

/-- The node of c1Env with every getLogs call throwing. -/
def c1ErrEnv : Env :=
  { c1Env with getLogs := fun _ _ _ => .error .nodeError }

/-- A node whose log fetches return empty lists. -/
def c2Env : Env :=
  { c1Env with getLogs := fun _ _ _ => .ok [] }

/-- A synchronizer whose only processor is catching up and lags behind the
    DB block number 5. -/
def c2St : SyncState :=
  { noteProcessors := [],
    noteProcessorsToCatchUp := [{ publicKey := 7, syncedToBlock := 0 }],
    initialSyncBlockNumber := 0,
    db := { blockNumber := some 5, blockHeader := none, notes := [] },
    events := [] }

/-- A synchronizer whose only catch-up processor is already at the DB block
    number 5. -/
def c3St : SyncState :=
  { c2St with noteProcessorsToCatchUp := [{ publicKey := 7, syncedToBlock := 5 }] }

/-- c3St after the early-promotion branch of workNoteProcessorCatchUp. -/
def c3StAfter : SyncState :=
  { c3St with noteProcessorsToCatchUp := [],
              noteProcessors := [{ publicKey := 7, syncedToBlock := 5 }] }

/-- A well-behaved node for exercising operation sequences: every fetched
    block is numbered as requested and processing succeeds. -/
def c4Env : Env :=
  { getLogs := fun _ _ _ => .ok [100]
    getBlocks := fun f _ => .ok [sampleBlock f]
    getBlockNumber := .ok 10
    getBlockHeader := .ok sampleHeader
    findLeafIndex := fun _ => .ok none
    computeGlobalsHash := fun g => g
    processFn := fun np _ _ _ => .ok (np, []) }

/-- A sample operation sequence: initial sync, forward work, a new account,
    one catch-up step. -/
def c4Ops : List SyncOp :=
  [.initialSyncOp, .workOp 1, .addAccountOp 9 3, .catchUpOp 1]

/-- The starting state for the C4 witness. -/
def c4St : SyncState :=
  { noteProcessors := [{ publicKey := 7, syncedToBlock := 5 }],
    noteProcessorsToCatchUp := [],
    initialSyncBlockNumber := 0,
    db := { blockNumber := some 5, blockHeader := none, notes := [] },
    events := [] }

/-- A node serving two log bundles of each kind but a single block numbered
    6, for the truncation scenario. -/
def c5Env : Env :=
  { getLogs := fun _ _ t =>
      if t == LogType.encrypted then .ok [100, 101] else .ok [200, 201]
    getBlocks := fun _ _ => .ok [sampleBlock 6]
    getBlockNumber := .ok 10
    getBlockHeader := .ok sampleHeader
    findLeafIndex := fun _ => .ok none
    computeGlobalsHash := fun g => g
    processFn := fun np _ _ _ => .ok (np, []) }

/-- A sample deferred note for the serialization round trip. -/
def c7Sample : DeferredNoteDao :=
  { publicKeyX := 11, publicKeyY := 12, note := [1, 2, 3], contractAddress := 13,
    storageSlot := 14, txHash := 15, txNullifier := 16,
    newCommitments := [4, 5], dataStartIndexForTx := 17 }

/-- A note whose nullifier sits at leaf index 0 of the nullifier tree. -/
def c9Note : NoteDao := { publicKey := 7, siloedNullifier := 41 }

/-- A second note of the same account, nullifier found at leaf index 1. -/
def c9Note2 : NoteDao := { publicKey := 7, siloedNullifier := 42 }

/-- A node placing nullifier 41 at leaf index 0 and every other nullifier at
    leaf index 1. -/
def c9Env : Env :=
  { c1Env with findLeafIndex := fun n => .ok (if n == 41 then some 0 else some 1) }

/-- A database holding the leaf-index-0 note. -/
def c9Db : DB := { blockNumber := none, blockHeader := none, notes := [c9Note] }

/-- A synchronizer with one active and one catch-up processor with distinct
    public keys. -/
def c10St : SyncState :=
  { noteProcessors := [{ publicKey := 7, syncedToBlock := 5 }],
    noteProcessorsToCatchUp := [{ publicKey := 9, syncedToBlock := 2 }],
    initialSyncBlockNumber := 0,
    db := { blockNumber := some 5, blockHeader := none, notes := [] },
    events := [] }

/- From here on: lemmas and the claim theorems. -/

/- Lemmas about the byte-level serialization primitives. -/

theorem toBytesBE_length (w n : Nat) : (toBytesBE w n).length = w := by
  induction w generalizing n with
  | zero => rfl
  | succ w ih => simp [toBytesBE, ih]

theorem fromBytesBE_toBytesBE {w n : Nat} (h : n < 256 ^ w) :
    fromBytesBE (toBytesBE w n) = n := by
  induction w generalizing n with
  | zero =>
    simp [pow_zero, Nat.lt_one_iff] at h
    simp [h, toBytesBE, fromBytesBE]
  | succ w ih =>
    have hdiv : n / 256 < 256 ^ w := by
      rw [Nat.div_lt_iff_lt_mul (by norm_num : 0 < 256)]
      calc n < 256 ^ (w + 1) := h
        _ = 256 ^ w * 256 := by ring
    have := ih hdiv
    simp only [toBytesBE, fromBytesBE, List.foldl_append, List.foldl_cons, List.foldl_nil]
    simp only [fromBytesBE] at this
    rw [this]
    exact Nat.div_add_mod n 256 ▸ by omega

theorem readBytes_append {w : Nat} {l : List Nat} (h : l.length = w) (rest : List Nat) :
    readBytes w (l ++ rest) = some (l, rest) := by
  subst h
  simp [readBytes, List.take_left, List.drop_left]

theorem readFr_append {n : Nat} (h : n < 2 ^ 256) (rest : List Nat) :
    readFr (frToBytes n ++ rest) = some (n, rest) := by
  have h256 : n < 256 ^ 32 := by
    have : (256 : Nat) ^ 32 = 2 ^ 256 := by norm_num
    omega
  simp [readFr, frToBytes, readBytes_append (toBytesBE_length 32 n),
    fromBytesBE_toBytesBE h256]

theorem readU32_append {n : Nat} (h : n < 2 ^ 32) (rest : List Nat) :
    readU32 (u32ToBytes n ++ rest) = some (n, rest) := by
  have h256 : n < 256 ^ 4 := by
    have : (256 : Nat) ^ 4 = 2 ^ 32 := by norm_num
    omega
  simp [readU32, u32ToBytes, readBytes_append (toBytesBE_length 4 n),
    fromBytesBE_toBytesBE h256]

theorem readFrList_append {xs : List Nat} (h : ∀ x ∈ xs, x < 2 ^ 256) (rest : List Nat) :
    readFrList xs.length ((xs.map frToBytes).flatten ++ rest) = some (xs, rest) := by
  induction xs generalizing rest with
  | nil => simp [readFrList]
  | cons x xs ih =>
    have hx : x < 2 ^ 256 := h x (List.mem_cons_self x xs)
    have hxs : ∀ y ∈ xs, y < 2 ^ 256 := fun y hy => h y (List.mem_cons_of_mem x hy)
    simp only [List.length_cons, List.map_cons, List.flatten_cons, List.append_assoc,
      readFrList, readFr_append hx, ih hxs]

theorem readVector_append {xs : List Nat} (hlen : xs.length < 2 ^ 32)
    (h : ∀ x ∈ xs, x < 2 ^ 256) (rest : List Nat) :
    readVector (vectorToBytes xs ++ rest) = some (xs, rest) := by
  simp only [vectorToBytes, List.append_assoc, readVector, readU32_append hlen,
    readFrList_append h]

/- Lemmas about the synchronizer model. -/

theorem optLe_refl (a : Option Int) : optLe a a :=
  fun n h => ⟨n, h, le_refl n⟩

theorem optLe_trans {a b c : Option Int} (h1 : optLe a b) (h2 : optLe b c) : optLe a c := by
  intro n hn
  obtain ⟨m, hm, hnm⟩ := h1 n hn
  obtain ⟨k, hk, hmk⟩ := h2 m hm
  exact ⟨k, hk, le_trans hnm hmk⟩

theorem dbAddNotes_blockNumber (db : DB) (ns : List NoteDao) :
    (dbAddNotes db ns).blockNumber = db.blockNumber := rfl

theorem processAll_blockNumber (env : Env) (ctxs : List L2BlockContext) (logs : List Logs)
    (nps : List NoteProcessor) (db : DB) :
    (processAll env ctxs logs nps db).2.2.blockNumber = db.blockNumber := by
  induction nps generalizing db with
  | nil => rfl
  | cons np rest ih =>
    simp only [processAll]
    cases henv : env.processFn np ctxs logs db with
    | error e => rfl
    | ok v => simpa [dbAddNotes] using ih (dbAddNotes db v.2)

theorem attachAll_length (bs : List Block) (enc unenc : List Logs) :
    (attachAll bs enc unenc).length = bs.length := by
  induction bs generalizing enc unenc with
  | nil => rfl
  | cons b bs ih => simp [attachAll, ih]

theorem attachAll_getElem? (bs : List Block) (enc unenc : List Logs) (i : Nat) :
    (attachAll bs enc unenc)[i]? =
      (bs[i]?).map (fun b =>
        { b with attachedEncryptedLogs := enc[i]?,
                 attachedUnencryptedLogs := unenc[i]? }) := by
  induction bs generalizing enc unenc i with
  | nil => simp [attachAll]
  | cons b bs ih =>
    cases i with
    | zero => simp [attachAll, List.head?_eq_getElem?]
    | succ i => simp [attachAll, ih, List.getElem?_tail]

theorem addAccount_db (st : SyncState) (pk : Nat) (sb : Int) :
    (addAccount st pk sb).db = st.db := by
  unfold addAccount
  dsimp only
  split <;> rfl

theorem catchUp_ok_blockNumber {env : Env} {limit : Int} {st : SyncState}
    {r : Bool × SyncState}
    (hr : workNoteProcessorCatchUp env limit st = .ok r) :
    r.2.db.blockNumber = st.db.blockNumber := by
  unfold workNoteProcessorCatchUp at hr
  split at hr
  · exact absurd hr (by simp)
  · dsimp only at hr
    split at hr
    · cases hr; rfl
    · split at hr
      · exact absurd hr (by simp)
      · split at hr
        · cases hr; rfl
        · split at hr
          · cases hr; rfl
          · split at hr
            · cases hr; rfl
            · split at hr
              · cases hr; rfl
              · split at hr
                · cases hr; rfl
                · split at hr
                  · cases hr
                    simp [dbAddNotes]
                  · cases hr
                    simp [dbAddNotes]

theorem work_db_mono (env : Env) (limit : Int) (st : SyncState) :
    optLe st.db.blockNumber ((work env limit st).2.db.blockNumber) := by
  unfold work
  dsimp only
  split
  · exact optLe_refl _
  next encryptedLogs0 henc =>
    split
    · exact optLe_refl _
    · split
      · exact optLe_refl _
      next unencryptedLogs0 hunenc =>
        split
        · exact optLe_refl _
        · split
          · exact optLe_refl _
          next blocks hblocks =>
            split
            · exact optLe_refl _
            · split
              · exact optLe_refl _
              next latestBlock hlast =>
                simp only [processAll_blockNumber]
                unfold setBlockDataFromBlock
                split
                · exact optLe_refl _
                next hge =>
                  intro n hn
                  refine ⟨latestBlock.block.number, by simp [dbSetBlockData], ?_⟩
                  have hmem := List.mem_of_getLast?_eq_some hlast
                  obtain ⟨bb, hbb, hmk⟩ := List.mem_map.mp hmem
                  have hfil := (List.mem_filter.mp hbb).2
                  have hnum : nextFrom st ≤ bb.number := by simpa using hfil
                  have : latestBlock.block = bb := by rw [← hmk]
                  rw [this]
                  have : getSynchedBlockNumber st = n := by
                    simp [getSynchedBlockNumber, hn]
                  simp only [nextFrom, this] at hnum
                  omega

theorem initialSync_blockNumber_mono (env : Env) (st : SyncState)
    (h : initialSyncOk env st = true) :
    optLe st.db.blockNumber ((applyOp env .initialSyncOp st).db.blockNumber) := by
  unfold applyOp initialSync
  cases hbn : env.getBlockNumber with
  | error e => exact optLe_refl _
  | ok b =>
    cases hdr : env.getBlockHeader with
    | error e => exact optLe_refl _
    | ok hd =>
      intro n hn
      refine ⟨b, by simp [dbSetBlockData], ?_⟩
      unfold initialSyncOk at h
      rw [hn, hbn] at h
      simpa using h

theorem applyOp_catchUp_blockNumber (env : Env) (limit : Int) (st : SyncState) :
    (applyOp env (.catchUpOp limit) st).db.blockNumber = st.db.blockNumber := by
  unfold applyOp
  dsimp only
  cases hr : workNoteProcessorCatchUp env limit st with
  | error e => rfl
  | ok r => exact catchUp_ok_blockNumber hr

theorem runOps_blockNumber_mono (env : Env) (ops : List SyncOp) (st : SyncState)
    (ht : traceOk env ops st = true) :
    optLe st.db.blockNumber ((runOps env ops st).db.blockNumber) := by
  induction ops generalizing st with
  | nil => exact optLe_refl _
  | cons op ops ih =>
    simp only [traceOk, Bool.and_eq_true] at ht
    refine optLe_trans ?_ (ih _ ht.2)
    cases op with
    | initialSyncOp => exact initialSync_blockNumber_mono env st (by simpa using ht.1)
    | workOp limit => exact work_db_mono env limit st
    | catchUpOp limit =>
      rw [applyOp_catchUp_blockNumber]
      exact optLe_refl _
    | addAccountOp pk sb =>
      simp only [applyOp]
      rw [addAccount_db]
      exact optLe_refl _

/- The claim theorems. -/

/-- C1 (counterexample): a throw during note processing is caught and work
    returns false, but the DB cursor has already advanced (from 5 to the
    fetched block 6), so the next call computes a different from value (7
    instead of 6), contradicting the claim that the cursor never advances
    when an operation inside work throws. -/
theorem c1_cursor_advance_counterexample :
    (work c1Env 1 c1St).1 = false ∧
    nextFrom c1St = 6 ∧ nextFrom (work c1Env 1 c1St).2 = 7 := by
  refine ⟨rfl, rfl, rfl⟩

/-- C1 (amended): work catches every throw and returns false; when the
    throwing operation is one of the node fetches (encrypted logs,
    unencrypted logs, or blocks) — all of which precede the header write —
    the state is unchanged, so the next call computes the same from value. -/
theorem c1_work_catches_node_fetch_errors (env : Env) (limit : Int) (st : SyncState)
    (herr :
      (∃ e, env.getLogs (nextFrom st) limit .encrypted = .error e) ∨
      (∃ logs e, env.getLogs (nextFrom st) limit .encrypted = .ok logs ∧
         env.getLogs (nextFrom st) limit .unencrypted = .error e) ∨
      (∃ logs1 logs2 e, env.getLogs (nextFrom st) limit .encrypted = .ok logs1 ∧
         env.getLogs (nextFrom st) limit .unencrypted = .ok logs2 ∧
         env.getBlocks (nextFrom st) (logs1.length : Int) = .error e)) :
    work env limit st = (false, st) ∧
    nextFrom (work env limit st).2 = nextFrom st := by
  have hmain : work env limit st = (false, st) := by
    rcases herr with ⟨e, h1⟩ | ⟨logs, e, h1, h2⟩ | ⟨logs1, logs2, e, h1, h2, h3⟩
    · simp [work, h1]
    · by_cases hz : logs.length = 0
      · simp [work, h1, hz]
      · simp [work, h1, h2, hz]
    · by_cases hz1 : logs1.length = 0
      · simp [work, h1, hz1]
      · by_cases hz2 : logs2.length = 0
        · simp [work, h1, h2, hz1, hz2]
        · simp [work, h1, h2, h3, hz1, hz2]
  exact ⟨hmain, by rw [hmain]⟩

/-- C1 (witness): with a node whose log fetches throw, work returns false
    and the state — hence the next from value — is unchanged. -/
theorem c1_work_catches_node_fetch_errors_witness :
    work c1ErrEnv 1 c1St = (false, c1St) ∧
    nextFrom (work c1ErrEnv 1 c1St).2 = nextFrom c1St :=
  c1_work_catches_node_fetch_errors c1ErrEnv 1 c1St (Or.inl ⟨.nodeError, rfl⟩)

/-- C2 (counterexample): with the head catch-up processor lagging (synced 0,
    DB at 5) and the node returning empty encrypted logs, the call returns
    Except.ok (false, unchanged state): the deliberate throw is caught by
    the catch of workNoteProcessorCatchUp itself and converted into a false
    return, so no error propagates to the caller, contrary to the claim. -/
theorem c2_no_propagation_counterexample :
    workNoteProcessorCatchUp c2Env 1 c2St = .ok (false, c2St) := by
  rfl

/-- C2 (amended): when the head catch-up processor lags and the node returns
    an empty encrypted-log list or an empty block list, the function throws
    internally but its own catch handler converts the throw into an ok
    (false, unchanged-state) result; the error does not propagate. -/
theorem c2_catch_up_empty_fetch_returns_false (env : Env) (limit : Int) (st : SyncState)
    (np : NoteProcessor) (rest : List NoteProcessor)
    (h0 : st.noteProcessorsToCatchUp = np :: rest)
    (hlag : np.syncedToBlock < getSynchedBlockNumber st)
    (hlim : 1 ≤ limit)
    (hempty :
      env.getLogs (np.syncedToBlock + 1)
        (min limit (getSynchedBlockNumber st - (np.syncedToBlock + 1) + 1))
        .encrypted = .ok [] ∨
      (∃ logs, logs ≠ [] ∧
        env.getLogs (np.syncedToBlock + 1)
          (min limit (getSynchedBlockNumber st - (np.syncedToBlock + 1) + 1))
          .encrypted = .ok logs ∧
        env.getBlocks (np.syncedToBlock + 1) (logs.length : Int) = .ok [])) :
    workNoteProcessorCatchUp env limit st = .ok (false, st) := by
  unfold workNoteProcessorCatchUp
  rw [h0]
  dsimp only
  rw [if_neg (not_le.mpr hlag)]
  rw [if_neg (by omega : ¬ min limit (getSynchedBlockNumber st - (np.syncedToBlock + 1) + 1) < 1)]
  rcases hempty with hA | ⟨logs, hne, hlogs, hblocks⟩
  · rw [hA]
    rfl
  · rw [hlogs]
    have hlen : logs.length ≠ 0 := by simpa [List.length_eq_zero] using hne
    dsimp only
    rw [if_neg hlen, hblocks]
    rfl

/-- C2 (witness): concrete lagging state and empty-log node, giving the ok
    (false, unchanged) result. -/
theorem c2_catch_up_empty_fetch_returns_false_witness :
    workNoteProcessorCatchUp c2Env 1 c2St = .ok (false, c2St) :=
  c2_catch_up_empty_fetch_returns_false c2Env 1 c2St
    { publicKey := 7, syncedToBlock := 0 } [] rfl (by decide) (by decide)
    (Or.inl rfl)

/-- C3 (counterexample): when the head catch-up processor is already at the
    DB block number, the call promotes it and returns true, but the events
    stream stays empty: no note-processor-caught-up event is emitted in this
    branch, contrary to the claim. -/
theorem c3_no_event_counterexample :
    workNoteProcessorCatchUp c1Env 1 c3St = .ok (true, c3StAfter) ∧
    c3StAfter.events = [] := by
  exact ⟨rfl, rfl⟩

/-- C3 (amended): when the head catch-up processor has syncedToBlock at
    least the DB block number, it is removed from the catch-up list,
    appended to the active list and true is returned — but no
    note-processor-caught-up event is emitted in this branch (the event is
    only emitted on the promotion that follows actual processing). -/
theorem c3_synched_head_promoted_without_event (env : Env) (limit : Int) (st : SyncState)
    (np : NoteProcessor) (rest : List NoteProcessor)
    (h0 : st.noteProcessorsToCatchUp = np :: rest)
    (hsync : getSynchedBlockNumber st ≤ np.syncedToBlock) :
    workNoteProcessorCatchUp env limit st =
      .ok (true, { st with noteProcessorsToCatchUp := rest,
                           noteProcessors := st.noteProcessors ++ [np] }) ∧
    ({ st with noteProcessorsToCatchUp := rest,
               noteProcessors := st.noteProcessors ++ [np] } : SyncState).events
      = st.events := by
  constructor
  · unfold workNoteProcessorCatchUp
    rw [h0]
    dsimp only
    rw [if_pos (by exact hsync)]
  · rfl

/-- C3 (witness): the concrete already-synched head is promoted with no
    event emitted. -/
theorem c3_synched_head_promoted_without_event_witness :
    workNoteProcessorCatchUp c1Env 1 c3St =
      .ok (true, { c3St with noteProcessorsToCatchUp := [],
                             noteProcessors := c3St.noteProcessors ++
                               [{ publicKey := 7, syncedToBlock := 5 }] }) ∧
    ({ c3St with noteProcessorsToCatchUp := [],
                 noteProcessors := c3St.noteProcessors ++
                   [{ publicKey := 7, syncedToBlock := 5 }] } : SyncState).events
      = c3St.events :=
  c3_synched_head_promoted_without_event c1Env 1 c3St
    { publicKey := 7, syncedToBlock := 5 } [] rfl (by decide)

/-- C4: across any sequence of synchronizer operations — under the
    hypotheses that the node reports a latest block number at least the
    current DB block number whenever initialSync runs, and that getBlocks
    returns ascending blocks numbered at least the requested start — the DB
    block number never decreases, and the operations other than work and
    initialSync leave it unchanged. -/
theorem c4_db_block_number_monotone (env : Env) (_hblocks : getBlocksOk env)
    (ops : List SyncOp) (st : SyncState) (ht : traceOk env ops st = true) :
    optLe st.db.blockNumber ((runOps env ops st).db.blockNumber) ∧
    (∀ (op : SyncOp) (st' : SyncState), modifiesCursor op = false →
      (applyOp env op st').db.blockNumber = st'.db.blockNumber) := by
  refine ⟨runOps_blockNumber_mono env ops st ht, ?_⟩
  intro op st' hop
  cases op with
  | initialSyncOp => simp [modifiesCursor] at hop
  | workOp limit => simp [modifiesCursor] at hop
  | catchUpOp limit => exact applyOp_catchUp_blockNumber env limit st'
  | addAccountOp pk sb =>
    simp only [applyOp]
    rw [addAccount_db]

/-- C4 (witness): a concrete run of initial sync, forward work, account
    addition and catch-up under a well-behaved node. -/
theorem c4_db_block_number_monotone_witness :
    optLe c4St.db.blockNumber ((runOps c4Env c4Ops c4St).db.blockNumber) ∧
    (∀ (op : SyncOp) (st' : SyncState), modifiesCursor op = false →
      (applyOp c4Env op st').db.blockNumber = st'.db.blockNumber) :=
  c4_db_block_number_monotone c4Env
    (by
      intro f l blocks h
      simp only [c4Env] at h
      cases h
      simp [sampleBlock])
    c4Ops c4St (by decide)

/-- C5: when the node returns non-empty log lists and a non-empty block list
    shorter than both log lists, and the blocks are numbered consecutively
    from the requested start, work trims both log lists to the number of
    blocks, builds exactly one block context per block covering
    [from .. from + len(blocks) − 1] with the trimmed logs attached, and
    feeds every active processor these contexts together with the trimmed
    encrypted-log list. -/
theorem c5_truncation_and_coverage (env : Env) (limit : Int) (st : SyncState)
    (enc unenc : List Logs) (blocks : List Block)
    (henc : env.getLogs (nextFrom st) limit .encrypted = .ok enc)
    (hunenc : env.getLogs (nextFrom st) limit .unencrypted = .ok unenc)
    (hblocks : env.getBlocks (nextFrom st) (enc.length : Int) = .ok blocks)
    (hbne : blocks ≠ [])
    (hlt1 : blocks.length < enc.length)
    (hlt2 : blocks.length < unenc.length)
    (hnum : ∀ i (hi : i < blocks.length), blocks[i].number = nextFrom st + i) :
    ∃ latest,
      ((attachAll blocks (enc.take blocks.length) (unenc.take blocks.length)).map
          L2BlockContext.mk).getLast? = some latest ∧
      work env limit st =
        (let ctxs := (attachAll blocks (enc.take blocks.length)
             (unenc.take blocks.length)).map L2BlockContext.mk
         let st1 := setBlockDataFromBlock env st latest
         let r := processAll env ctxs (enc.take blocks.length) st1.noteProcessors st1.db
         (r.1, { st1 with noteProcessors := r.2.1, db := r.2.2 })) ∧
      ((attachAll blocks (enc.take blocks.length) (unenc.take blocks.length)).map
          L2BlockContext.mk).length = blocks.length ∧
      (∀ i, i < blocks.length →
        ∃ ctx,
          ((attachAll blocks (enc.take blocks.length) (unenc.take blocks.length)).map
              L2BlockContext.mk)[i]? = some ctx ∧
          ctx.block.number = nextFrom st + i ∧
          ctx.block.attachedEncryptedLogs = enc[i]? ∧
          ctx.block.attachedUnencryptedLogs = unenc[i]?) := by
  have hbpos : 0 < blocks.length := List.length_pos.mpr hbne
  have hbln : ¬ blocks.length = 0 := by omega
  have hencne : ¬ enc.length = 0 := by omega
  have hunencne : ¬ unenc.length = 0 := by omega
  have hne1 : blocks.length ≠ enc.length := Nat.ne_of_lt hlt1
  have hne2 : blocks.length ≠ unenc.length := Nat.ne_of_lt hlt2
  have hElem : ∀ i (hi : i < blocks.length),
      ((attachAll blocks (enc.take blocks.length) (unenc.take blocks.length)).map
          L2BlockContext.mk)[i]? =
        some (L2BlockContext.mk
          { blocks[i] with attachedEncryptedLogs := enc[i]?,
                           attachedUnencryptedLogs := unenc[i]? }) := by
    intro i hi
    rw [List.getElem?_map, attachAll_getElem?, List.getElem?_eq_getElem hi]
    simp [List.getElem?_take, hi]
  have hfil : (attachAll blocks (enc.take blocks.length)
      (unenc.take blocks.length)).filter (fun b => decide (nextFrom st ≤ b.number)) =
      attachAll blocks (enc.take blocks.length) (unenc.take blocks.length) := by
    rw [List.filter_eq_self]
    intro b hb
    obtain ⟨i, hi⟩ := List.mem_iff_getElem?.mp hb
    rw [attachAll_getElem?, Option.map_eq_some'] at hi
    obtain ⟨b0, hb0, rfl⟩ := hi
    obtain ⟨hilt, hbi⟩ := List.getElem?_eq_some_iff.mp hb0
    have hv := hnum i hilt
    rw [hbi] at hv
    simp only [decide_eq_true_eq]
    change nextFrom st ≤ b0.number
    omega
  have hctxne :
      ((attachAll blocks (enc.take blocks.length) (unenc.take blocks.length)).map
        L2BlockContext.mk) ≠ [] := by
    intro hcon
    have hlen0 := congrArg List.length hcon
    simp only [List.length_map, attachAll_length, List.length_nil] at hlen0
    omega
  refine ⟨((attachAll blocks (enc.take blocks.length) (unenc.take blocks.length)).map
      L2BlockContext.mk).getLast hctxne, List.getLast?_eq_getLast _ hctxne, ?_, ?_, ?_⟩
  · unfold work
    dsimp only
    rw [henc]
    (try dsimp only)
    rw [if_neg hencne, hunenc]
    (try dsimp only)
    rw [if_neg hunencne, hblocks]
    (try dsimp only)
    rw [if_neg hbln]
    rw [if_pos hne1, if_pos hne2, hfil, List.getLast?_eq_getLast _ hctxne]
  · simp [attachAll_length]
  · intro i hi
    refine ⟨_, hElem i hi, ?_, rfl, rfl⟩
    have hv := hnum i hi
    simpa using hv

/-- C5 (witness): two encrypted and two unencrypted log bundles against a
    single block numbered 6, at cursor 5. -/
theorem c5_truncation_and_coverage_witness :
    ∃ latest,
      ((attachAll [sampleBlock 6] ([100, 101].take 1) ([200, 201].take 1)).map
          L2BlockContext.mk).getLast? = some latest ∧
      work c5Env 2 c1St =
        (let ctxs := (attachAll [sampleBlock 6] ([100, 101].take 1)
             ([200, 201].take 1)).map L2BlockContext.mk
         let st1 := setBlockDataFromBlock c5Env c1St latest
         let r := processAll c5Env ctxs ([100, 101].take 1) st1.noteProcessors st1.db
         (r.1, { st1 with noteProcessors := r.2.1, db := r.2.2 })) ∧
      ((attachAll [sampleBlock 6] ([100, 101].take 1) ([200, 201].take 1)).map
          L2BlockContext.mk).length = [sampleBlock 6].length ∧
      (∀ i, i < [sampleBlock 6].length →
        ∃ ctx,
          ((attachAll [sampleBlock 6] ([100, 101].take 1) ([200, 201].take 1)).map
              L2BlockContext.mk)[i]? = some ctx ∧
          ctx.block.number = nextFrom c1St + i ∧
          ctx.block.attachedEncryptedLogs = [100, 101][i]? ∧
          ctx.block.attachedUnencryptedLogs = [200, 201][i]?) := by
  have h := c5_truncation_and_coverage c5Env 2 c1St [100, 101] [200, 201]
    [sampleBlock 6] rfl rfl rfl (by decide) (by decide) (by decide)
    (by
      intro i hi
      simp only [List.length_cons, List.length_nil] at hi
      have hz : i = 0 := by omega
      subst hz
      norm_num [sampleBlock, nextFrom, getSynchedBlockNumber, c1St])
  simpa using h

/-- C6: setBlockDataFromBlock persists the header built from the block via
    db.setBlockData exactly when the block number is at least the initial
    sync block number; below it the state is left unchanged. -/
theorem c6_header_persist_iff_at_least_initial (env : Env) (st : SyncState)
    (ctx : L2BlockContext) :
    (st.initialSyncBlockNumber ≤ ctx.block.number →
      setBlockDataFromBlock env st ctx =
        { st with db :=
            (dbSetBlockData st.db ctx.block.number
              (mkBlockHeaderFromBlock env ctx.block)) }) ∧
    (ctx.block.number < st.initialSyncBlockNumber →
      setBlockDataFromBlock env st ctx = st) := by
  constructor
  · intro h
    unfold setBlockDataFromBlock
    rw [if_neg (not_lt.mpr h)]
  · intro h
    unfold setBlockDataFromBlock
    rw [if_pos h]

/-- C6 (witness): block 6 against an initial sync block number 0 is
    persisted. -/
theorem c6_header_persist_iff_at_least_initial_witness :
    setBlockDataFromBlock c1Env c1St (L2BlockContext.mk (sampleBlock 6)) =
      { c1St with db :=
          (dbSetBlockData c1St.db (L2BlockContext.mk (sampleBlock 6)).block.number
            (mkBlockHeaderFromBlock c1Env (L2BlockContext.mk (sampleBlock 6)).block)) } :=
  (c6_header_persist_iff_at_least_initial c1Env c1St
    (L2BlockContext.mk (sampleBlock 6))).1 (by decide)

/-- C7: the DeferredNoteDao serialization round trip — fromBuffer of
    toBuffer returns the original value, for every well-formed deferred
    note. -/
theorem c7_deferred_note_roundtrip (d : DeferredNoteDao) (h : d.wf) :
    DeferredNoteDao.fromBuffer d.toBuffer = some d := by
  obtain ⟨h1, h2, h3, h4, h5, h6, h7, h8, h9, h10, h11⟩ := h
  unfold DeferredNoteDao.toBuffer DeferredNoteDao.fromBuffer
  simp only [List.append_assoc]
  rw [readFr_append h1]
  (try dsimp only)
  rw [readFr_append h2]
  (try dsimp only)
  rw [readVector_append h4 h3]
  (try dsimp only)
  rw [readFr_append h5]
  (try dsimp only)
  rw [readFr_append h6]
  (try dsimp only)
  rw [readFr_append h7]
  (try dsimp only)
  rw [readFr_append h8]
  (try dsimp only)
  rw [readVector_append h10 h9]
  (try dsimp only)
  rw [show u32ToBytes d.dataStartIndexForTx
      = u32ToBytes d.dataStartIndexForTx ++ [] from (List.append_nil _).symm]
  rw [readU32_append h11]

/-- C7 (witness): the round trip on a concrete deferred note. -/
theorem c7_deferred_note_roundtrip_witness :
    DeferredNoteDao.fromBuffer c7Sample.toBuffer = some c7Sample :=
  c7_deferred_note_roundtrip c7Sample (by decide)

theorem addAccount_of_exists (st : SyncState) (pk : Nat) (sb : Int)
    (h : ∃ np, (np ∈ st.noteProcessors ∨ np ∈ st.noteProcessorsToCatchUp) ∧
      np.publicKey = pk) :
    addAccount st pk sb = st := by
  obtain ⟨np, hmem, hpk⟩ := h
  unfold addAccount
  dsimp only
  cases hfa : st.noteProcessors.find? (fun x => x.publicKey == pk) with
  | some x => simp [Option.orElse]
  | none =>
    cases hfb : st.noteProcessorsToCatchUp.find? (fun x => x.publicKey == pk) with
    | some x => simp [Option.orElse, hfb]
    | none =>
      exfalso
      rcases hmem with hm | hm
      · exact (List.find?_eq_none.mp hfa np hm) (by simp [hpk])
      · exact (List.find?_eq_none.mp hfb np hm) (by simp [hpk])

theorem addAccount_of_absent (st : SyncState) (pk : Nat) (sb : Int)
    (h : ∀ np, np ∈ st.noteProcessors ∨ np ∈ st.noteProcessorsToCatchUp →
      np.publicKey ≠ pk) :
    addAccount st pk sb =
      { st with noteProcessorsToCatchUp :=
          st.noteProcessorsToCatchUp ++ [mkNoteProcessor pk sb] } := by
  unfold addAccount
  dsimp only
  rw [List.find?_eq_none.mpr (fun np hm => by simp [h np (Or.inl hm)]),
    List.find?_eq_none.mpr (fun np hm => by simp [h np (Or.inr hm)])]
  rfl

/-- C8: addAccount is idempotent: when a processor with the public key is in
    either list nothing changes; otherwise exactly one fresh processor is
    appended to the catch-up list; and a second call with the same public
    key (any starting block) has no further effect. -/
theorem c8_add_account_idempotent (st : SyncState) (pk : Nat) (sb : Int) :
    ((∃ np, (np ∈ st.noteProcessors ∨ np ∈ st.noteProcessorsToCatchUp) ∧
        np.publicKey = pk) → addAccount st pk sb = st) ∧
    ((∀ np, np ∈ st.noteProcessors ∨ np ∈ st.noteProcessorsToCatchUp →
        np.publicKey ≠ pk) →
      addAccount st pk sb =
        { st with noteProcessorsToCatchUp :=
            st.noteProcessorsToCatchUp ++ [mkNoteProcessor pk sb] }) ∧
    (∀ sb2, addAccount (addAccount st pk sb) pk sb2 = addAccount st pk sb) := by
  refine ⟨addAccount_of_exists st pk sb, addAccount_of_absent st pk sb, ?_⟩
  intro sb2
  by_cases hex : ∃ np, (np ∈ st.noteProcessors ∨ np ∈ st.noteProcessorsToCatchUp) ∧
    np.publicKey = pk
  · rw [addAccount_of_exists st pk sb hex, addAccount_of_exists st pk sb2 hex]
  · push_neg at hex
    have hall : ∀ np, np ∈ st.noteProcessors ∨ np ∈ st.noteProcessorsToCatchUp →
        np.publicKey ≠ pk := fun np hm => hex np hm
    rw [addAccount_of_absent st pk sb hall]
    apply addAccount_of_exists
    exact ⟨mkNoteProcessor pk sb,
      Or.inr (by simp [mkNoteProcessor]), rfl⟩

/-- C8 (witness): adding key 9 twice to a state that lacks it appends one
    processor; adding the present key 7 is a no-op. -/
theorem c8_add_account_idempotent_witness :
    ((∃ np, (np ∈ c1St.noteProcessors ∨ np ∈ c1St.noteProcessorsToCatchUp) ∧
        np.publicKey = 7) → addAccount c1St 7 3 = c1St) ∧
    ((∀ np, np ∈ c1St.noteProcessors ∨ np ∈ c1St.noteProcessorsToCatchUp →
        np.publicKey ≠ 7) →
      addAccount c1St 7 3 =
        { c1St with noteProcessorsToCatchUp :=
            c1St.noteProcessorsToCatchUp ++ [mkNoteProcessor 7 3] }) ∧
    (∀ sb2, addAccount (addAccount c1St 7 3) 7 sb2 = addAccount c1St 7 3) :=
  c8_add_account_idempotent c1St 7 3

theorem mem_collectRelevantNullifiers {env : Env} {l r : List Nat} {x : Nat}
    (hr : collectRelevantNullifiers env l = .ok r) (hx : x ∈ r) :
    ∃ f, env.findLeafIndex x = .ok f ∧ jsTruthyIndex f = true := by
  induction l generalizing r with
  | nil =>
    unfold collectRelevantNullifiers at hr
    cases hr
    cases hx
  | cons y ys ih =>
    unfold collectRelevantNullifiers at hr
    split at hr
    · exact absurd hr (by simp)
    next f hf =>
      split at hr
      · exact absurd hr (by simp)
      next tail htail =>
        cases hr
        by_cases hT : jsTruthyIndex f = true
        · rw [if_pos hT] at hx
          rcases List.mem_cons.mp hx with rfl | hx2
          · exact ⟨f, hf, hT⟩
          · exact ih htail hx2
        · rw [if_neg hT] at hx
          exact ih htail hx

/-- C9: in the final nullifier scan, a note whose siloed nullifier the node
    reports at leaf index 0 is skipped — the truthiness test rejects index
    0 — so it never enters relevantNullifiers and survives the
    removeNullifiedNotes call. -/
theorem c9_zero_leaf_index_nullifier_skipped (env : Env) (db : DB) (pk : Nat)
    (notes : List NoteDao) (note : NoteDao) (relevant : List Nat) (db2 : DB)
    (_hmem : note ∈ notes)
    (hzero : env.findLeafIndex note.siloedNullifier = .ok (some 0))
    (hscan : nullifierScanForGroup env db pk notes = .ok (relevant, db2)) :
    note.siloedNullifier ∉ relevant ∧ (note ∈ db.notes → note ∈ db2.notes) := by
  unfold nullifierScanForGroup at hscan
  split at hscan
  · exact absurd hscan (by simp)
  · rename_i rel0 hcol
    cases hscan
    have hnotin : note.siloedNullifier ∉ relevant := by
      intro hin
      obtain ⟨f, hf, hT⟩ := mem_collectRelevantNullifiers hcol hin
      rw [hzero] at hf
      cases hf
      simp [jsTruthyIndex] at hT
    refine ⟨hnotin, ?_⟩
    intro hdb
    unfold dbRemoveNullifiedNotes
    dsimp only
    apply List.mem_filter.mpr
    refine ⟨hdb, ?_⟩
    simp only [Bool.not_eq_true']
    rw [Bool.and_eq_false_iff]
    right
    simpa using hnotin

/-- C9 (witness): nullifier 41 at leaf index 0 is skipped while 42 at index
    1 is collected; the note stays in the database. -/
theorem c9_zero_leaf_index_nullifier_skipped_witness :
    c9Note.siloedNullifier ∉ [42] ∧ (c9Note ∈ c9Db.notes → c9Note ∈
      (dbRemoveNullifiedNotes c9Db [42] 7).notes) :=
  c9_zero_leaf_index_nullifier_skipped c9Env c9Db 7 [c9Note, c9Note2] c9Note
    [42] (dbRemoveNullifiedNotes c9Db [42] 7) (by simp) rfl rfl

theorem objGet_eq_none_of (entries : List (Nat × Int)) (k : Nat)
    (h : ∀ p ∈ entries, ¬ p.1 = k) : objGet entries k = none := by
  unfold objGet
  rw [List.filter_eq_nil_iff.mpr (fun p hp => by simpa using h p hp)]
  rfl

theorem objGet_map_self {l : List NoteProcessor}
    (hnd : (l.map (fun n => n.publicKey)).Nodup) {np : NoteProcessor} (h : np ∈ l) :
    objGet (l.map (fun n => (n.publicKey, n.syncedToBlock))) np.publicKey =
      some np.syncedToBlock := by
  induction l with
  | nil => cases h
  | cons a l ih =>
    rw [List.map_cons, List.nodup_cons] at hnd
    rcases List.mem_cons.mp h with heq | hmem
    · subst heq
      unfold objGet
      have hrest : (l.map (fun n => (n.publicKey, n.syncedToBlock))).filter
          (fun p => p.1 == np.publicKey) = [] := by
        rw [List.filter_eq_nil_iff]
        intro p hp
        obtain ⟨n, hn, rfl⟩ := List.mem_map.mp hp
        simp only [beq_iff_eq]
        intro hq
        exact hnd.1 (by rw [← hq]; exact List.mem_map_of_mem _ hn)
      simp [List.filter_cons, hrest]
    · have hne : (a.publicKey == np.publicKey) = false := by
        simp only [beq_eq_false_iff_ne, ne_eq]
        intro hq
        exact hnd.1 (by rw [hq]; exact List.mem_map_of_mem _ hmem)
      have hih := ih hnd.2 hmem
      unfold objGet at hih ⊢
      simpa [List.filter_cons, hne] using hih

/-- C10: getSyncStatus lists exactly one (publicKey, syncedToBlock) entry
    per active processor, lookups on the resulting object return their
    syncedToBlock, and any key carried only by catch-up processors (or by no
    processor) is absent. -/
theorem c10_sync_status_notes_active_only (st : SyncState)
    (hnodup : (st.noteProcessors.map (fun n => n.publicKey)).Nodup) :
    ((getSyncStatus st).2).length = st.noteProcessors.length ∧
    (∀ np ∈ st.noteProcessors,
      objGet (getSyncStatus st).2 np.publicKey = some np.syncedToBlock) ∧
    (∀ pk, (∀ np ∈ st.noteProcessors, np.publicKey ≠ pk) →
      objGet (getSyncStatus st).2 pk = none) ∧
    (∀ np ∈ st.noteProcessorsToCatchUp,
      (∀ np2 ∈ st.noteProcessors, np2.publicKey ≠ np.publicKey) →
      objGet (getSyncStatus st).2 np.publicKey = none) := by
  have hnone : ∀ pk, (∀ np ∈ st.noteProcessors, np.publicKey ≠ pk) →
      objGet (getSyncStatus st).2 pk = none := by
    intro pk hall
    apply objGet_eq_none_of
    intro p hp
    unfold getSyncStatus at hp
    dsimp only at hp
    obtain ⟨n, hn, rfl⟩ := List.mem_map.mp hp
    exact hall n hn
  refine ⟨by simp [getSyncStatus], ?_, hnone,
    fun np _ hall => hnone np.publicKey hall⟩
  intro np hm
  unfold getSyncStatus
  dsimp only
  exact objGet_map_self hnodup hm

/-- C10 (witness): the active key 7 is present with its block 5; the
    catch-up key 9 is absent from the notes map. -/
theorem c10_sync_status_notes_active_only_witness :
    ((getSyncStatus c10St).2).length = c10St.noteProcessors.length ∧
    (∀ np ∈ c10St.noteProcessors,
      objGet (getSyncStatus c10St).2 np.publicKey = some np.syncedToBlock) ∧
    (∀ pk, (∀ np ∈ c10St.noteProcessors, np.publicKey ≠ pk) →
      objGet (getSyncStatus c10St).2 pk = none) ∧
    (∀ np ∈ c10St.noteProcessorsToCatchUp,
      (∀ np2 ∈ c10St.noteProcessors, np2.publicKey ≠ np.publicKey) →
      objGet (getSyncStatus c10St).2 np.publicKey = none) :=
  c10_sync_status_notes_active_only c10St (by decide)

end PxeSync
